import Mathlib

set_option maxRecDepth 40000

/-!
# Maria Ledger: formal model of the hashing, Merkle, reconstruction and
# verification core

A shallow embedding of the Python sources of `maria_ledger`:

* `maria_ledger/crypto/hash_utils.py` (canonicalization, chain/record hashes)
* `maria_ledger/crypto/merkle_tree.py` (Merkle tree build / proof / verify)
* `maria_ledger/cli/verify_chain.py` (chain verification walk)
* `maria_ledger/cli/reconstruct.py` (state reconstruction fold)
* `maria_ledger/db/merkle_service.py` (checkpoint root computation)
* `maria_ledger/db/temporal_utils.py` (forensic analysis of the ledger)

Python strings are Lean `String`s, byte strings are `List Nat` (each element
< 256), integers are `Int`/`Nat`.  SHA-256 is implemented in full so concrete
digests evaluate inside Lean.
-/

namespace MariaLedger

/-! ## Bytes, hex and UTF-8 -/

/-- Lower-case hex digit for a nibble. -/
def hexDigit (n : Nat) : Char :=
  if n < 10 then Char.ofNat (48 + n) else Char.ofNat (87 + n)

/-- Big-endian fixed-width lower-case hex rendering of a natural number. -/
def natToHexPad : Nat → Nat → String
  | 0, _ => ""
  | w + 1, n => natToHexPad w (n / 16) ++ String.singleton (hexDigit (n % 16))

/-- Fixed-width zero-padded decimal rendering of a natural number. -/
def natToDecPad : Nat → Nat → String
  | 0, _ => ""
  | w + 1, n => natToDecPad w (n / 10) ++ String.singleton (Char.ofNat (48 + n % 10))

/-- UTF-8 encoding of a single character, as bytes. -/
def utf8Char (c : Char) : List Nat :=
  let n := c.toNat
  if n < 128 then [n]
  else if n < 2048 then [192 + n / 64, 128 + n % 64]
  else if n < 65536 then [224 + n / 4096, 128 + (n / 64) % 64, 128 + n % 64]
  else [240 + n / 262144, 128 + (n / 4096) % 64, 128 + (n / 64) % 64, 128 + n % 64]

/-- UTF-8 encoding of a string, as bytes.  Models Python `s.encode('utf-8')`. -/
def utf8 (s : String) : List Nat :=
  (s.data.map utf8Char).flatten

/-! ## SHA-256

A direct executable implementation of FIPS 180-4 SHA-256 over byte lists,
with 32-bit words represented as `Nat` reduced mod `2^32`. -/

def w32 : Nat := 4294967296

/-- Right-rotation of a 32-bit word. -/
def rotr (n x : Nat) : Nat :=
  ((x >>> n) ||| (x <<< (32 - n))) % w32

def bsig0 (x : Nat) : Nat := rotr 2 x ^^^ rotr 13 x ^^^ rotr 22 x
def bsig1 (x : Nat) : Nat := rotr 6 x ^^^ rotr 11 x ^^^ rotr 25 x
def ssig0 (x : Nat) : Nat := rotr 7 x ^^^ rotr 18 x ^^^ (x >>> 3)
def ssig1 (x : Nat) : Nat := rotr 17 x ^^^ rotr 19 x ^^^ (x >>> 10)

def chFn (x y z : Nat) : Nat := (x &&& y) ^^^ ((x ^^^ 4294967295) &&& z)
def majFn (x y z : Nat) : Nat := (x &&& y) ^^^ (x &&& z) ^^^ (y &&& z)

/-- The 64 SHA-256 round constants. -/
def k256 : List Nat :=
  [1116352408, 1899447441, 3049323471, 3921009573, 961987163, 1508970993,
   2453635748, 2870763221, 3624381080, 310598401, 607225278, 1426881987,
   1925078388, 2162078206, 2614888103, 3248222580, 3835390401, 4022224774,
   264347078, 604807628, 770255983, 1249150122, 1555081692, 1996064986,
   2554220882, 2821834349, 2952996808, 3210313671, 3336571891, 3584528711,
   113926993, 338241895, 666307205, 773529912, 1294757372, 1396182291,
   1695183700, 1986661051, 2177026350, 2456956037, 2730485921, 2820302411,
   3259730800, 3345764771, 3516065817, 3600352804, 4094571909, 275423344,
   430227734, 506948616, 659060556, 883997877, 958139571, 1322822218,
   1537002063, 1747873779, 1955562222, 2024104815, 2227730452, 2361852424,
   2428436474, 2756734187, 3204031479, 3329325298]

/-- The SHA-256 initial hash state. -/
def h256 : List Nat :=
  [1779033703, 3144134277, 1013904242, 2773480762,
   1359893119, 2600822924, 528734635, 1541459225]

/-- `w` big-endian bytes of `n`. -/
def beBytes (w : Nat) (n : Nat) : List Nat :=
  (List.range w).map (fun i => (n >>> (8 * (w - 1 - i))) % 256)

/-- SHA-256 padding: append `0x80`, zero bytes, and the 64-bit bit length. -/
def sha256Pad (msg : List Nat) : List Nat :=
  let len := msg.length
  msg ++ [128] ++ List.replicate ((64 - (len + 9) % 64) % 64) 0 ++ beBytes 8 (len * 8)

/-- Split a byte list into 64-byte blocks (the fuel, one unit per produced
block, is structural only; `l.length + 1` units always suffice because each
block consumes at least one byte). -/
def chunks64Go : Nat → List Nat → List (List Nat)
  | 0, _ => []
  | _, [] => []
  | fuel + 1, l => l.take 64 :: chunks64Go fuel (l.drop 64)

/-- Split a byte list into 64-byte blocks. -/
def chunks64 (l : List Nat) : List (List Nat) :=
  chunks64Go (l.length + 1) l

/-- Pack bytes into big-endian 32-bit words. -/
def toWords : List Nat → List Nat
  | b0 :: b1 :: b2 :: b3 :: rest =>
      (((b0 * 256 + b1) * 256 + b2) * 256 + b3) :: toWords rest
  | _ => []

/-- Extend the 16 message words to the full 64-entry schedule. -/
def sched (steps : Nat) (w : List Nat) : List Nat :=
  match steps with
  | 0 => w
  | s + 1 =>
      let n := w.length
      let next := (ssig1 (w.getD (n - 2) 0) + w.getD (n - 7) 0 +
                   ssig0 (w.getD (n - 15) 0) + w.getD (n - 16) 0) % w32
      sched s (w ++ [next])

/-- One SHA-256 compression round on the 8-word working state. -/
def round256 (st : List Nat) (kw : Nat × Nat) : List Nat :=
  let a := st.getD 0 0
  let b := st.getD 1 0
  let c := st.getD 2 0
  let d := st.getD 3 0
  let e := st.getD 4 0
  let f := st.getD 5 0
  let g := st.getD 6 0
  let h := st.getD 7 0
  let t1 := (h + bsig1 e + chFn e f g + kw.1 + kw.2) % w32
  let t2 := (bsig0 a + majFn a b c) % w32
  [(t1 + t2) % w32, a, b, c, (d + t1) % w32, e, f, g]

/-- Process one 64-byte block, updating the 8-word hash state. -/
def processBlock (hs : List Nat) (block : List Nat) : List Nat :=
  let w := sched 48 (toWords block)
  let fin := (k256.zip w).foldl round256 hs
  (hs.zip fin).map (fun p => (p.1 + p.2) % w32)

/-- SHA-256 of a byte list, as the 8 32-bit words of the digest. -/
def sha256Words (msg : List Nat) : List Nat :=
  (chunks64 (sha256Pad msg)).foldl processBlock h256

/-- SHA-256 of a byte list as a 64-character lower-case hex string.
Models Python `hashlib.sha256(bytes).hexdigest()`. -/
def sha256Hex (msg : List Nat) : String :=
  String.join ((sha256Words msg).map (natToHexPad 8))

/-- `merkle_tree.sha256`: SHA-256 hex digest of the UTF-8 bytes of a string. -/
def sha256 (data : String) : String :=
  sha256Hex (utf8 data)

/-! ## Datetimes

`datetime.datetime` values (naive, as stored in the ledger's `created_at`
column and inside payloads).  A `datetime.date` is represented as a
`DateTime` at midnight, which is exactly how `canonicalize_datetime`
normalizes dates (`datetime.combine(dt, datetime.min.time())`). -/

structure DateTime where
  year : Nat
  month : Nat
  day : Nat
  hour : Nat
  minute : Nat
  second : Nat
  usec : Nat
deriving DecidableEq, Repr

/-- `hash_utils.canonicalize_datetime`: `dt.strftime('%Y-%m-%d %H:%M:%S.%f')`,
microseconds always rendered with 6 digits. -/
def canonicalizeDatetime (d : DateTime) : String :=
  natToDecPad 4 d.year ++ "-" ++ natToDecPad 2 d.month ++ "-" ++ natToDecPad 2 d.day ++
  " " ++ natToDecPad 2 d.hour ++ ":" ++ natToDecPad 2 d.minute ++ ":" ++
  natToDecPad 2 d.second ++ "." ++ natToDecPad 6 d.usec

/-- `datetime.isoformat()` with separator `sep`: fractional part omitted when
the microsecond field is zero. -/
def isoformatSep (sep : String) (d : DateTime) : String :=
  natToDecPad 4 d.year ++ "-" ++ natToDecPad 2 d.month ++ "-" ++ natToDecPad 2 d.day ++
  sep ++ natToDecPad 2 d.hour ++ ":" ++ natToDecPad 2 d.minute ++ ":" ++
  natToDecPad 2 d.second ++ (if d.usec = 0 then "" else "." ++ natToDecPad 6 d.usec)

/-- `datetime.isoformat()` (separator `T`). -/
def isoformat (d : DateTime) : String := isoformatSep "T" d

/-- `str(datetime)` = `isoformat(sep=' ')`. -/
def pyStrDatetime (d : DateTime) : String := isoformatSep " " d

/-- Lexicographic comparison of equal-length `Nat` lists. -/
def natListLt : List Nat → List Nat → Bool
  | [], [] => false
  | [], _ :: _ => true
  | _ :: _, [] => false
  | x :: xs, y :: ys => if x < y then true else if y < x then false else natListLt xs ys

/-- The comparison tuple of a datetime. -/
def dtFields (d : DateTime) : List Nat :=
  [d.year, d.month, d.day, d.hour, d.minute, d.second, d.usec]

/-- Python `<` on naive datetimes: lexicographic on all fields. -/
def dtLt (a b : DateTime) : Bool :=
  natListLt (dtFields a) (dtFields b)

/-! ## JSON values and Python `json.dumps`

Payload values as they occur in the ledger: JSON scalars, arrays, objects,
plus `datetime` values (serialized through the `default=` hook).  Objects are
association lists in insertion order, mirroring Python dicts; well-formed
dicts have no duplicate keys.  Floating-point JSON numbers do not occur in
ledger payloads (the triggers CONVERT every tracked column to text), so the
model has no float constructor. -/

mutual
inductive Json where
  | null
  | bool (b : Bool)
  | int (n : Int)
  | str (s : String)
  | dt (d : DateTime)
  | arr (elems : JsonArr)
  | obj (entries : JsonObj)

/-- The element list of a JSON array. -/
inductive JsonArr where
  | nil
  | cons (hd : Json) (tl : JsonArr)

/-- The key/value entries of a JSON object, in insertion order. -/
inductive JsonObj where
  | nil
  | cons (key : String) (val : Json) (tl : JsonObj)
end

/-- Build a JSON array from a plain list of values. -/
def jarr : List Json → JsonArr
  | [] => .nil
  | x :: xs => .cons x (jarr xs)

/-- Build a JSON object from a plain association list (insertion order). -/
def jobj : List (String × Json) → JsonObj
  | [] => .nil
  | (k, v) :: rest => .cons k v (jobj rest)

/-- `json.dumps` escaping of one character inside a string literal.
With `ensureAscii` every character outside `0x20..0x7e` is `\uXXXX`-escaped
(astral characters as surrogate pairs); without it only `"`, `\` and control
characters are escaped. -/
def escapeChar (ensureAscii : Bool) (c : Char) : String :=
  if c = '"' then "\\\""
  else if c = '\\' then "\\\\"
  else if c = '\n' then "\\n"
  else if c = '\t' then "\\t"
  else if c = '\r' then "\\r"
  else if c.toNat = 8 then "\\b"
  else if c.toNat = 12 then "\\f"
  else if c.toNat < 32 then "\\u" ++ natToHexPad 4 c.toNat
  else if ensureAscii then
    if c.toNat ≤ 126 then String.singleton c
    else if c.toNat < 65536 then "\\u" ++ natToHexPad 4 c.toNat
    else
      let v := c.toNat - 65536
      "\\u" ++ natToHexPad 4 (55296 + v / 1024) ++ "\\u" ++ natToHexPad 4 (56320 + v % 1024)
  else String.singleton c

/-- A JSON string literal: quotes around the escaped characters. -/
def jsonQuote (ensureAscii : Bool) (s : String) : String :=
  "\"" ++ String.join (s.data.map (escapeChar ensureAscii)) ++ "\""

/-- Python `<` on strings: lexicographic comparison by Unicode code point. -/
def charListLt : List Char → List Char → Bool
  | [], [] => false
  | [], _ :: _ => true
  | _ :: _, [] => false
  | c :: cs, d :: ds =>
      if c.toNat < d.toNat then true
      else if d.toNat < c.toNat then false
      else charListLt cs ds

def strLt (a b : String) : Bool := charListLt a.data b.data

/-- Stable insertion (by key) used to model Python `sorted` on dict items. -/
def insertByKey {α : Type} (p : String × α) : List (String × α) → List (String × α)
  | [] => [p]
  | q :: rest => if strLt q.1 p.1 then q :: insertByKey p rest else p :: q :: rest

/-- Stable sort by key, modelling Python `sorted(d.items())` (keys unique). -/
def sortByKey {α : Type} : List (String × α) → List (String × α)
  | [] => []
  | p :: rest => insertByKey p (sortByKey rest)

/-- Stable sort of strings, modelling Python `sorted(list_of_str)`. -/
def insertStr (x : String) : List String → List String
  | [] => [x]
  | y :: ys => if strLt y x then y :: insertStr x ys else x :: y :: ys

def sortStrings : List String → List String
  | [] => []
  | x :: xs => insertStr x (sortStrings xs)

mutual
/-- `json.dumps(j, sort_keys=True, separators=(',', ':'), default=dtFmt,
ensure_ascii=ea)`: keys sorted lexicographically at every nesting level,
compact separators, strings escaped, datetimes rendered through the
`default=` hook and then emitted as JSON string literals. -/
def jsonDumps (ea : Bool) (dtFmt : DateTime → String) : Json → String
  | .null => "null"
  | .bool true => "true"
  | .bool false => "false"
  | .int n => toString n
  | .str s => jsonQuote ea s
  | .dt d => jsonQuote ea (dtFmt d)
  | .arr xs => "[" ++ String.intercalate "," (jsonDumpsArr ea dtFmt xs) ++ "]"
  | .obj kvs =>
      "\x7b" ++ String.intercalate ","
        ((sortByKey (jsonDumpsKvs ea dtFmt kvs)).map
          (fun p => jsonQuote ea p.1 ++ ":" ++ p.2)) ++ "\x7d"
termination_by structural j => j

def jsonDumpsArr (ea : Bool) (dtFmt : DateTime → String) : JsonArr → List String
  | .nil => []
  | .cons x rest => jsonDumps ea dtFmt x :: jsonDumpsArr ea dtFmt rest
termination_by structural l => l

def jsonDumpsKvs (ea : Bool) (dtFmt : DateTime → String) : JsonObj → List (String × String)
  | .nil => []
  | .cons k v rest => (k, jsonDumps ea dtFmt v) :: jsonDumpsKvs ea dtFmt rest
termination_by structural l => l
end

/-- `hash_utils.canonicalize_json`: sorted keys, compact separators,
`ensure_ascii=False`, datetimes through `canonicalize_datetime`. -/
def canonicalizeJson (j : Json) : String :=
  jsonDumps false canonicalizeDatetime j

/-- `utils/helpers.canonicalize_json` (decoded to text): sorted keys, compact
separators, default `ensure_ascii=True`, datetimes through `isoformat()`. -/
def helpersCanonicalizeJson (j : Json) : String :=
  jsonDumps true isoformat j

/-! ## `hash_utils` hashing algorithms -/

/-- Python-dict lookup `d.get(k)` on a JSON object (keys unique). -/
def objGet (d : JsonObj) (k : String) : Option Json :=
  match d with
  | .nil => none
  | .cons k' v rest => if k' = k then some v else objGet rest k

/-- Python-dict assignment `d[k] = v`: overwrite in place, else append. -/
def objSet (d : JsonObj) (k : String) (v : Json) : JsonObj :=
  match d with
  | .nil => .cons k v .nil
  | .cons k' v' rest =>
      if k' = k then .cons k v rest else .cons k' v' (objSet rest k v)

/-- `hash_utils.compute_chain_hash`: hex SHA-256 of the `'|'`-joined fields,
with payloads canonicalized (or the literal `NULL` when `None`) and the
timestamp in canonical format. -/
def computeChainHash (prevHash txId recordId opType : String)
    (oldPayload newPayload : Option JsonObj)
    (createdAt : DateTime) : String :=
  let oldPayloadStr := match oldPayload with
    | some p => canonicalizeJson (.obj p)
    | none => "NULL"
  let newPayloadStr := match newPayload with
    | some p => canonicalizeJson (.obj p)
    | none => "NULL"
  let createdAtStr := canonicalizeDatetime createdAt
  let dataToHash := String.intercalate "|"
    [prevHash, txId, recordId, opType, oldPayloadStr, newPayloadStr, createdAtStr]
  sha256Hex (utf8 dataToHash)

/-- The dict comprehension `{k: payload.get(k) for k in sorted(fields_to_hash)}`
from `compute_record_hash`: every requested field appears, missing fields map
to `None` (JSON `null`); duplicates collapse by dict semantics. -/
def filteredPayload (fieldsToHash : List String) (payload : JsonObj) : JsonObj :=
  (sortStrings fieldsToHash).foldl
    (fun d k => objSet d k ((objGet payload k).getD .null)) .nil

/-- `hash_utils.compute_record_hash`.  Note the source guard is the
truthiness test `if fields_to_hash:`, so an empty list behaves like `None`. -/
def computeRecordHash (recordId : String) (payload : JsonObj)
    (fieldsToHash : Option (List String) := none) : String :=
  let payloadToHash := match fieldsToHash with
    | none => payload
    | some [] => payload
    | some fs => filteredPayload fs payload
  let canonicalPayload := canonicalizeJson (.obj payloadToHash)
  let data := recordId ++ "|" ++ canonicalPayload
  sha256Hex (utf8 data)

/-- `hash_utils.compute_merkle_hash`: SHA-256 of the concatenated child
hex strings. -/
def computeMerkleHash (leftHash rightHash : String) : String :=
  sha256Hex (utf8 (leftHash ++ rightHash))

/-! ## `crypto/merkle_tree.py`: the Merkle tree -/

/-- One pass of `build_tree`'s inner loop: hash adjacent pairs; a trailing
node without a right neighbour is combined with itself
(`right = current_level[i+1] if i+1 < len(current_level) else left`). -/
def pairUp : List String → List String
  | [] => []
  | [x] => [sha256 (x ++ x)]
  | x :: y :: rest => sha256 (x ++ y) :: pairUp rest

/-- The `while len(current_level) > 1` loop of `build_tree`, collecting every
level bottom-up.  The fuel is structural bookkeeping only: the loop halves
the level length, so `n + 1` units are always enough for `n` leaves. -/
def buildLevelsGo : Nat → List String → List (List String)
  | 0, cur => [cur]
  | fuel + 1, cur =>
      if cur.length ≤ 1 then [cur]
      else cur :: buildLevelsGo fuel (pairUp cur)

def buildLevels (leaves : List String) : List (List String) :=
  buildLevelsGo (leaves.length + 1) leaves

/-- The `MerkleTree` object: `root` is `none` when the attribute was never
assigned (`__init__` skips `build_tree()` entirely for an empty leaf list). -/
structure MerkleTree where
  leaves : List String
  levels : List (List String)
  root : Option String

/-- `MerkleTree.__init__`. -/
def mkMerkleTree (leaves : List String) : MerkleTree :=
  match leaves with
  | [] => ⟨leaves, [], Option.none⟩
  | _ :: _ =>
      let lvls := buildLevels leaves
      ⟨leaves, lvls, lvls.getLast?.bind List.head?⟩

/-- `MerkleTree.get_root`: `return self.root` raises `AttributeError` when
the attribute was never assigned, modelled as the `.error` case. -/
def getRoot (t : MerkleTree) : Except String String :=
  match t.root with
  | some r => .ok r
  | Option.none => .error "AttributeError: MerkleTree object has no attribute root"

/-- The loop of `get_proof` over `self.levels[:-1]`: the sibling hash is
appended only when its index is in range, but the running index is halved
at every level regardless. -/
def getProofGo : List (List String) → Nat → List String
  | [], _ => []
  | level :: rest, idx =>
      let siblingIdx := if idx % 2 = 0 then idx + 1 else idx - 1
      match level.get? siblingIdx with
      | some h => h :: getProofGo rest (idx / 2)
      | Option.none => getProofGo rest (idx / 2)

/-- `MerkleTree.get_proof`. -/
def getProof (t : MerkleTree) (index : Nat) : List String :=
  getProofGo t.levels.dropLast index

/-- The recomputation loop of `verify_proof`: hash `(current, sibling)` when
the running index is even, `(sibling, current)` when odd, halving the index
each step. -/
def verifyProofGo (computed : String) (idx : Nat) : List String → String
  | [] => computed
  | siblingHash :: rest =>
      verifyProofGo
        (if idx % 2 = 0 then sha256 (computed ++ siblingHash)
         else sha256 (siblingHash ++ computed))
        (idx / 2) rest

/-- `MerkleTree.verify_proof`. -/
def verifyProof (leafHash : String) (proof : List String) (root : String)
    (index : Nat) : Bool :=
  verifyProofGo leafHash index proof == root

/-! ## `cli/verify_chain.py`: chain verification -/

/-- A Python value as it appears in a ledger row fetched from the store:
`None`, a string, an integer, a naive datetime, or a decoded JSON
container. -/
inductive PyVal where
  | none
  | str (s : String)
  | int (n : Int)
  | dt (d : DateTime)
  | obj (entries : JsonObj)
  | arr (elems : JsonArr)

/-- `verify_chain.canonical_string`: `None ↦ 'NULL'`; dicts and lists through
`utils/helpers.canonicalize_json` (UTF-8-decoded); datetimes through
`strftime('%Y-%m-%d %H:%M:%S.%f')` (the same rendering as
`canonicalize_datetime`); anything else through `str(val)`. -/
def canonicalString : PyVal → String
  | .none => "NULL"
  | .obj kvs => helpersCanonicalizeJson (.obj kvs)
  | .arr xs => helpersCanonicalizeJson (.arr xs)
  | .dt d => canonicalizeDatetime d
  | .str s => s
  | .int n => toString n

/-- A row of the universal `ledger` table as the verifier reads it
(`SELECT * ... ORDER BY tx_order ASC`).  The hash and identifier columns are
`CHAR`/`VARCHAR` and arrive as strings; `created_at` arrives as a naive
datetime; the payload columns arrive as `None`, as the stored JSON text, or
(with a converter) as a decoded container. -/
structure Row where
  tx_order : Int
  tx_id : String
  record_id : String
  op_type : String
  old_payload : PyVal
  new_payload : PyVal
  created_at : DateTime
  prev_hash : String
  chain_hash : String

/-- `verify_chain.compute_chain_hash_py`: the verifier-side recomputation of
the chain hash from a fetched row. -/
def computeChainHashPy (row : Row) : String :=
  let dataToHash := String.intercalate "|"
    [canonicalString (.str row.prev_hash),
     canonicalString (.str row.tx_id),
     canonicalString (.str row.record_id),
     canonicalString (.str row.op_type),
     canonicalString row.old_payload,
     canonicalString row.new_payload,
     canonicalString (.dt row.created_at)]
  sha256Hex (utf8 dataToHash)

/-- The genesis constant `'0' * 64`. -/
def genesisHash : String := String.mk (List.replicate 64 '0')

/-- The observable outcome of `verify_chain_command`. -/
inductive VerifyOutcome where
  | nothingToVerify
  | chainBreak (txOrder : Int)
  | corruptedEntry (txOrder : Int)
  | success
deriving DecidableEq, Repr

/-- The verification loop of `verify_chain_command`: check the link to the
previous entry, then recompute the row hash, then advance `expected_prev`. -/
def verifyChainGo (expectedPrevHash : String) : List Row → VerifyOutcome
  | [] => .success
  | row :: rest =>
      if row.prev_hash ≠ expectedPrevHash then .chainBreak row.tx_order
      else if row.chain_hash ≠ computeChainHashPy row then .corruptedEntry row.tx_order
      else verifyChainGo row.chain_hash rest

/-- `verify_chain.verify_chain_command` on the rows fetched for the table:
an empty ledger reports "nothing to verify" and exits successfully;
otherwise the walk starts from the genesis hash. -/
def verifyChainCommand (rows : List Row) : VerifyOutcome :=
  if rows.length = 0 then .nothingToVerify
  else verifyChainGo genesisHash rows

/-! ## `json.loads` (strict mode)

An executable parser for the JSON texts stored in the ledger's payload
columns: `null`, booleans, integers, strings (with escapes and surrogate
pairs), arrays and objects.  Two documented restrictions, both outside what
ledger payloads can contain (the triggers CONVERT every tracked column to
text, so payload values are strings): numbers with a fraction or exponent
(Python floats) and lone surrogate escapes are rejected as parse failures. -/

def isWsChar (c : Char) : Bool :=
  c = ' ' || c = '\t' || c = '\n' || c = '\r'

def skipWs : List Char → List Char
  | [] => []
  | c :: rest => if isWsChar c then skipWs rest else c :: rest

def isDigitChar (c : Char) : Bool :=
  decide (48 ≤ c.toNat) && decide (c.toNat ≤ 57)

def takeDigits : List Char → List Char × List Char
  | [] => ([], [])
  | c :: rest =>
      if isDigitChar c then
        let (ds, r) := takeDigits rest
        (c :: ds, r)
      else ([], c :: rest)

def digitsToNat (acc : Nat) : List Char → Nat
  | [] => acc
  | c :: rest => digitsToNat (acc * 10 + (c.toNat - 48)) rest

/-- Value of one hex digit, if any. -/
def hexVal (c : Char) : Option Nat :=
  if isDigitChar c then some (c.toNat - 48)
  else if decide (97 ≤ c.toNat) && decide (c.toNat ≤ 102) then some (c.toNat - 87)
  else if decide (65 ≤ c.toNat) && decide (c.toNat ≤ 70) then some (c.toNat - 55)
  else Option.none

/-- Four hex digits. -/
def parseHex4 : List Char → Option (Nat × List Char)
  | c0 :: c1 :: c2 :: c3 :: rest => do
      let v0 ← hexVal c0
      let v1 ← hexVal c1
      let v2 ← hexVal c2
      let v3 ← hexVal c3
      some (((v0 * 16 + v1) * 16 + v2) * 16 + v3, rest)
  | _ => Option.none

/-- Body of a JSON string literal (after the opening quote): strict mode, so
raw control characters are rejected; `\uXXXX` escapes combine surrogate
pairs. -/
def parseJStringGo : Nat → List Char → List Char → Option (String × List Char)
  | 0, _, _ => Option.none
  | _, _, [] => Option.none
  | fuel + 1, acc, c :: rest =>
      if c = '"' then some (String.mk acc.reverse, rest)
      else if c = '\\' then
        match rest with
        | 'u' :: r => do
            let (h, r1) ← parseHex4 r
            if decide (55296 ≤ h) && decide (h ≤ 56319) then
              match r1 with
              | '\\' :: 'u' :: r2 => do
                  let (l, r3) ← parseHex4 r2
                  if decide (56320 ≤ l) && decide (l ≤ 57343) then
                    parseJStringGo fuel
                      (Char.ofNat (65536 + (h - 55296) * 1024 + (l - 56320)) :: acc) r3
                  else Option.none
              | _ => Option.none
            else if decide (56320 ≤ h) && decide (h ≤ 57343) then Option.none
            else parseJStringGo fuel (Char.ofNat h :: acc) r1
        | e :: r =>
            let esc : Option Char :=
              if e = '"' then some '"'
              else if e = '\\' then some '\\'
              else if e = '/' then some '/'
              else if e = 'b' then some (Char.ofNat 8)
              else if e = 'f' then some (Char.ofNat 12)
              else if e = 'n' then some '\n'
              else if e = 'r' then some '\r'
              else if e = 't' then some '\t'
              else Option.none
            match esc with
            | some ch => parseJStringGo fuel (ch :: acc) r
            | Option.none => Option.none
        | [] => Option.none
      else if decide (c.toNat < 32) then Option.none
      else parseJStringGo fuel (c :: acc) rest

/-- A JSON number.  Integers only: a fraction or exponent (a Python float)
is outside the model and rejected. -/
def parseNumber (cs : List Char) : Option (Json × List Char) :=
  let (neg, cs1) := match cs with
    | '-' :: r => (true, r)
    | _ => (false, cs)
  match takeDigits cs1 with
  | ([], _) => Option.none
  | (ds, rest) =>
      if decide (1 < ds.length) && (ds.headD '1' = '0') then Option.none
      else match rest with
        | '.' :: _ => Option.none
        | 'e' :: _ => Option.none
        | 'E' :: _ => Option.none
        | _ =>
            let n : Int := Int.ofNat (digitsToNat 0 ds)
            some (.int (if neg then -n else n), rest)

/-- Assemble parsed object pairs with Python-dict semantics: a repeated key
keeps its first position but its last value. -/
def objOfPairs (pairs : List (String × Json)) : JsonObj :=
  pairs.foldl (fun d p => objSet d p.1 p.2) .nil

mutual
/-- One JSON value, leading whitespace allowed. -/
def parseVal : Nat → List Char → Option (Json × List Char)
  | 0, _ => Option.none
  | fuel + 1, cs =>
      match skipWs cs with
      | 'n' :: 'u' :: 'l' :: 'l' :: rest => some (.null, rest)
      | 't' :: 'r' :: 'u' :: 'e' :: rest => some (.bool true, rest)
      | 'f' :: 'a' :: 'l' :: 's' :: 'e' :: rest => some (.bool false, rest)
      | '"' :: rest =>
          match parseJStringGo (rest.length + 1) [] rest with
          | some (s, r) => some (.str s, r)
          | Option.none => Option.none
      | '[' :: rest =>
          (match skipWs rest with
           | ']' :: r => some (.arr .nil, r)
           | r => match parseArrRest fuel r with
                  | some (xs, r') => some (.arr xs, r')
                  | Option.none => Option.none)
      | '\x7b' :: rest =>
          (match skipWs rest with
           | '\x7d' :: r => some (.obj .nil, r)
           | r => match parseObjRest fuel r with
                  | some (kvs, r') => some (.obj (objOfPairs kvs), r')
                  | Option.none => Option.none)
      | rest => parseNumber rest

/-- Parse `value (',' value)* ']'` for a non-empty array tail. -/
def parseArrRest : Nat → List Char → Option (JsonArr × List Char)
  | 0, _ => Option.none
  | fuel + 1, cs => do
      let (v, r1) ← parseVal fuel cs
      match skipWs r1 with
      | ',' :: r2 => do
          let (tl, r3) ← parseArrRest fuel r2
          some (.cons v tl, r3)
      | ']' :: r2 => some (.cons v .nil, r2)
      | _ => Option.none

/-- Parse a non-empty object tail, returning the raw pair list. -/
def parseObjRest : Nat → List Char → Option (List (String × Json) × List Char)
  | 0, _ => Option.none
  | fuel + 1, cs =>
      match skipWs cs with
      | '"' :: rest => do
          let (k, r1) ← parseJStringGo (rest.length + 1) [] rest
          match skipWs r1 with
          | ':' :: r2 => do
              let (v, r3) ← parseVal fuel r2
              match skipWs r3 with
              | ',' :: r4 => do
                  let (tl, r5) ← parseObjRest fuel r4
                  some ((k, v) :: tl, r5)
              | '\x7d' :: r4 => some ([(k, v)], r4)
              | _ => Option.none
          | _ => Option.none
      | _ => Option.none
end

/-- `json.loads`: parse one value and require only whitespace after it. -/
def jsonLoads (s : String) : Option Json :=
  match parseVal (s.data.length + 1) s.data with
  | some (j, rest) => if (skipWs rest).isEmpty then some j else Option.none
  | Option.none => Option.none

/-! ## `datetime.fromisoformat` (pre-3.11 grammar)

`YYYY-MM-DD[<sep>HH[:MM[:SS[.fff[fff]]]]]` with range validation.  Timezone
offsets produce aware datetimes, which do not occur in ledger payloads; they
are rejected as a documented model restriction. -/

def isLeapYear (y : Nat) : Bool :=
  (y % 4 = 0 && y % 100 ≠ 0) || y % 400 = 0

def daysInMonth (y mo : Nat) : Nat :=
  [31, if isLeapYear y then 29 else 28, 31, 30, 31, 30, 31, 31, 30, 31, 30, 31].getD (mo - 1) 0

/-- A fixed count of decimal digits. -/
def parseDigitsN : Nat → List Char → Option (Nat × List Char)
  | 0, cs => some (0, cs)
  | n + 1, c :: cs =>
      if isDigitChar c then
        match parseDigitsN n cs with
        | some (v, rest) => some ((c.toNat - 48) * 10 ^ n + v, rest)
        | Option.none => Option.none
      else Option.none
  | _ + 1, [] => Option.none

/-- The time part `HH[:MM[:SS[.fff[fff]]]]` (no timezone suffix). -/
def parseIsoTime (cs : List Char) : Option (Nat × Nat × Nat × Nat) := do
  let (h, r1) ← parseDigitsN 2 cs
  match r1 with
  | [] => if h ≤ 23 then some (h, 0, 0, 0) else Option.none
  | ':' :: r2 => do
      let (mi, r3) ← parseDigitsN 2 r2
      match r3 with
      | [] => if h ≤ 23 && mi ≤ 59 then some (h, mi, 0, 0) else Option.none
      | ':' :: r4 => do
          let (s, r5) ← parseDigitsN 2 r4
          match r5 with
          | [] => if h ≤ 23 && mi ≤ 59 && s ≤ 59 then some (h, mi, s, 0) else Option.none
          | '.' :: r6 => do
              let (frac, r7) ←
                match parseDigitsN 6 r6 with
                | some (v, rest) => some (v, rest)
                | Option.none =>
                    match parseDigitsN 3 r6 with
                    | some (v, rest) => some (v * 1000, rest)
                    | Option.none => Option.none
              if r7.isEmpty && h ≤ 23 && mi ≤ 59 && s ≤ 59 then some (h, mi, s, frac)
              else Option.none
          | _ => Option.none
      | _ => Option.none
  | _ => Option.none

/-- `datetime.fromisoformat` on a naive datetime string: a 10-character date,
then optionally one arbitrary separator character and a time part. -/
def fromIsoFormat (s : String) : Option DateTime := do
  let cs := s.data
  let (y, r1) ← parseDigitsN 4 cs
  match r1 with
  | '-' :: r2 => do
      let (mo, r3) ← parseDigitsN 2 r2
      match r3 with
      | '-' :: r4 => do
          let (d, r5) ← parseDigitsN 2 r4
          if 1 ≤ mo && mo ≤ 12 && 1 ≤ d && d ≤ daysInMonth y mo then
            match r5 with
            | [] => some ⟨y, mo, d, 0, 0, 0, 0⟩
            | _ :: r6 => do
                let (h, mi, sec, usec) ← parseIsoTime r6
                some ⟨y, mo, d, h, mi, sec, usec⟩
          else Option.none
      | _ => Option.none
  | _ => Option.none

/-! ## `cli/reconstruct.py`: state reconstruction -/

/-- Python truthiness of a payload value (`if not payload`). -/
def pyValFalsy : PyVal → Bool
  | .none => true
  | .str s => s.isEmpty
  | .int n => n = 0
  | .dt _ => false
  | .obj .nil => true
  | .obj _ => false
  | .arr .nil => true
  | .arr _ => false

/-- Whether `sub` occurs as a contiguous substring, for Python `'at' in key`. -/
def startsWithChars : List Char → List Char → Bool
  | [], _ => true
  | _ :: _, [] => false
  | a :: as, b :: bs => a = b && startsWithChars as bs

def hasInfixChars (sub : List Char) : List Char → Bool
  | [] => startsWithChars sub []
  | c :: rest => startsWithChars sub (c :: rest) || hasInfixChars sub rest

def strContainsSub (hay sub : String) : Bool :=
  hasInfixChars sub.data hay.data

/-- The timestamp coercion of `_parse_payload` for string values: keys named
`created_at`/`updated_at` or containing `at` get `fromisoformat` applied to
the value with spaces replaced by `T`; failures leave the string as is. -/
def tsCoerce (key : String) (s : String) : Json :=
  if key = "created_at" || key = "updated_at" || strContainsSub key "at" then
    match fromIsoFormat (s.replace " " "T") with
    | some d => .dt d
    | Option.none => .str s
  else .str s

mutual
/-- The `for key, value in payload.items()` loop of `_parse_payload`:
dict values recurse through `_parse_payload` (empty dicts become `None`),
string values under timestamp-looking keys are coerced to datetimes. -/
def mapItems : JsonObj → JsonObj
  | .nil => .nil
  | .cons k v rest =>
      let v' : Json :=
        match v with
        | .obj kvs => if parseItemsFalsy kvs then .null else .obj (mapItems kvs)
        | .str s => tsCoerce k s
        | other => other
      .cons k v' (mapItems rest)
termination_by structural l => l

/-- Truthiness of a nested dict inside `_parse_payload`. -/
def parseItemsFalsy : JsonObj → Bool
  | .nil => true
  | .cons _ _ _ => false
end

/-- Apply the items loop to a decoded JSON document: only dicts have
`.items()`, anything else raises `AttributeError`. -/
def itemsOf : Json → Except String JsonObj
  | .obj kvs => .ok (mapItems kvs)
  | _ => .error "AttributeError: object has no attribute items"

/-- `reconstruct._parse_payload`: falsy payloads become `None`; strings are
`json.loads`-decoded when possible (returned untouched otherwise) and the
result must be a dict; dict payloads go straight to the items loop; any
other truthy payload raises `AttributeError`. -/
def parsePayload (payload : PyVal) : Except String PyVal :=
  if pyValFalsy payload then .ok .none
  else match payload with
    | .str s =>
        match jsonLoads s with
        | Option.none => .ok (.str s)
        | some j => (itemsOf j).map PyVal.obj
    | .obj kvs => (itemsOf (.obj kvs)).map PyVal.obj
    | _ => .error "AttributeError: object has no attribute items"

/-- One entry of the ledger stream consumed by `apply_ops_to_state`
(the tuple yielded by `db_stream_query`). -/
structure LedgerOp where
  tx_order : Int
  record_id : String
  op_type : String
  old_payload : PyVal
  new_payload : PyVal

/-- The reconstructed state: a Python dict `record_id -> payload` in
insertion order. -/
def dictGetS (st : List (String × PyVal)) (k : String) : Option PyVal :=
  match st with
  | [] => Option.none
  | (k', v) :: rest => if k' = k then some v else dictGetS rest k

/-- Python-dict assignment on the state: overwrite in place, else append. -/
def dictSetS : List (String × PyVal) → String → PyVal → List (String × PyVal)
  | [], k, v => [(k, v)]
  | (k', v') :: rest, k, v =>
      if k' = k then (k, v) :: rest else (k', v') :: dictSetS rest k v

/-- `state.pop(record_id, None)`: remove the key if present, never fail. -/
def dictPopS : List (String × PyVal) → String → List (String × PyVal)
  | [], _ => []
  | (k', v') :: rest, k =>
      if k' = k then rest else (k', v') :: dictPopS rest k

/-- The loop of `apply_ops_to_state`. -/
def applyOpsGo (state : List (String × PyVal)) :
    List LedgerOp → Except String (List (String × PyVal))
  | [] => .ok state
  | op :: rest =>
      if op.op_type = "INSERT" then
        match parsePayload op.new_payload with
        | .error e => .error e
        | .ok v => applyOpsGo (dictSetS state op.record_id v) rest
      else if op.op_type = "UPDATE" then
        match parsePayload op.new_payload with
        | .error e => .error e
        | .ok v => applyOpsGo (dictSetS state op.record_id v) rest
      else if op.op_type = "DELETE" then
        applyOpsGo (dictPopS state op.record_id) rest
      else
        .error ("Unknown op_type " ++ op.op_type ++ " at tx_order " ++ toString op.tx_order)

/-- `reconstruct.apply_ops_to_state`: fold the ledger stream into the
reconstructed state, starting from the empty dict. -/
def applyOpsToState (ledgerStream : List LedgerOp) :
    Except String (List (String × PyVal)) :=
  applyOpsGo [] ledgerStream

/-! ## `db/merkle_service.py`: checkpoint computation -/

/-- `merkle_service.compute_root_from_chain_hashes` on the fetched
`chain_hash` column (`None` entries filtered out): `None` when no hashes
remain, otherwise the root of the Merkle tree over them. -/
def computeRootFromChainHashes (chainHashRows : List (Option String)) : Option String :=
  let hashes := chainHashRows.filterMap id
  if hashes.isEmpty then Option.none
  else (mkMerkleTree hashes).root

/-- An observable side effect of `compute_and_store_merkle_root`. -/
inductive StoreAction where
  | notify (msg : String)
  | signRoot (root : String)
  | persistRoot (tableName root signer signature fingerprint : String)
deriving DecidableEq, Repr

/-- `merkle_service.compute_and_store_merkle_root`, with the signing and
persistence steps reified as a list of store actions.  The source guard is
the truthiness test `if not root:`, which fires both for `None` and for an
empty-string root; in that case the caller is told the table might be empty
and nothing is signed or persisted. -/
def computeAndStoreMerkleRoot (tableName : String)
    (chainHashRows : List (Option String))
    (signFn : String → String) (signerId : String) (pubFingerprint : String) :
    Option String × List StoreAction :=
  let root? := computeRootFromChainHashes chainHashRows
  match root? with
  | Option.none =>
      (Option.none,
       [.notify ("Could not compute Merkle root for table " ++ tableName ++
                 ". It might be empty.")])
  | some root =>
      if root.isEmpty then
        (Option.none,
         [.notify ("Could not compute Merkle root for table " ++ tableName ++
                   ". It might be empty.")])
      else
        let signature := signFn root
        (some root,
         [.signRoot root,
          .persistRoot tableName root signerId signature pubFingerprint,
          .notify ("Merkle root stored and signed: " ++ root ++
                   " (signer=" ++ signerId ++ ")")])

/-! ## `db/temporal_utils.py`: forensic analysis of the universal ledger -/

/-- Python `str()` of a decoded JSON container (`repr` of dicts, lists and
their contents): single-quoted strings, `None`/`True`/`False`,
`datetime.datetime(...)` constructor form, `', '` and `': '` separators. -/
def pyReprStr (s : String) : String :=
  let hasSingle := s.data.contains '\x27'
  let hasDouble := s.data.contains '"'
  let quote : Char := if hasSingle && !hasDouble then '"' else '\x27'
  let escape (c : Char) : String :=
    if c = '\\' then "\\\\"
    else if c = quote then "\\" ++ String.singleton c
    else if c = '\n' then "\\n"
    else if c = '\r' then "\\r"
    else if c = '\t' then "\\t"
    else if decide (c.toNat < 32) then "\\x" ++ natToHexPad 2 c.toNat
    else String.singleton c
  String.singleton quote ++ String.join (s.data.map escape) ++ String.singleton quote

/-- Python `repr(datetime)`: trailing zero seconds/microseconds omitted. -/
def pyReprDatetime (d : DateTime) : String :=
  let args := [toString d.year, toString d.month, toString d.day,
               toString d.hour, toString d.minute] ++
              (if d.second ≠ 0 || d.usec ≠ 0 then [toString d.second] else []) ++
              (if d.usec ≠ 0 then [toString d.usec] else [])
  "datetime.datetime(" ++ String.intercalate ", " args ++ ")"

mutual
def pyReprJson : Json → String
  | .null => "None"
  | .bool true => "True"
  | .bool false => "False"
  | .int n => toString n
  | .str s => pyReprStr s
  | .dt d => pyReprDatetime d
  | .arr xs => "[" ++ String.intercalate ", " (pyReprArr xs) ++ "]"
  | .obj kvs => "\x7b" ++ String.intercalate ", " (pyReprKvs kvs) ++ "\x7d"
termination_by structural j => j

def pyReprArr : JsonArr → List String
  | .nil => []
  | .cons x rest => pyReprJson x :: pyReprArr rest
termination_by structural l => l

def pyReprKvs : JsonObj → List String
  | .nil => []
  | .cons k v rest => (pyReprStr k ++ ": " ++ pyReprJson v) :: pyReprKvs rest
termination_by structural l => l
end

/-- Python `str()` of a row value, as used when building the forensic row
hash (`str(row.get('old_payload', 'n/a'))` and friends). -/
def pyStr : PyVal → String
  | .none => "None"
  | .str s => s
  | .int n => toString n
  | .dt d => isoformatSep " " d
  | .obj kvs => pyReprJson (.obj kvs)
  | .arr xs => pyReprJson (.arr xs)

/-- The per-row hash of `analyze_universal_ledger_chain` step 4:
SHA-256 over the concatenated `str()` renderings of the payloads, the
operation, the record id and `iso(created_at)`.  `isoFn` models
`temporal_utils.iso`, whose output for the naive datetimes read from the
store depends on the host timezone (`astimezone(utc).isoformat()`), so it is
kept as a parameter. -/
def forensicRowHash (isoFn : DateTime → String) (row : Row) : String :=
  sha256Hex (utf8 (pyStr row.old_payload ++ pyStr row.new_payload ++
                   row.op_type ++ row.record_id ++ isoFn row.created_at))

/-- One detected anomaly of the forensic report. -/
structure Anomaly where
  type : String
  index : Nat
  detail : String
deriving DecidableEq, Repr

/-- The loop state of `analyze_universal_ledger_chain`. -/
structure AnalyzeState where
  index : Nat
  prevTxOrder : Int
  prevCreatedAt : Option DateTime
  prevRowHash : Option String
  seenTxIds : List String
  anomalies : List Anomaly

/-- One iteration of the `for i, row in enumerate(rows)` loop: the four
checks in source order (tx_order gap, timestamp rewind, duplicate tx_id,
hash-chain mismatch), then the previous-row trackers advance. -/
def analyzeStep (isoFn : DateTime → String) (st : AnalyzeState) (row : Row) :
    AnalyzeState :=
  let index := st.index + 1
  let gapAnoms : List Anomaly :=
    if st.prevTxOrder > 0 ∧ row.tx_order ≠ st.prevTxOrder + 1 then
      [⟨"tx_order_gap", index,
        "Gap detected in tx_order. Jumped from " ++ toString st.prevTxOrder ++
        " to " ++ toString row.tx_order ++ "."⟩]
    else []
  let tsAnoms : List Anomaly :=
    match st.prevCreatedAt with
    | some prev =>
        if dtLt row.created_at prev then
          [⟨"timestamp_non_monotonic", index,
            "Timestamp rewind detected. " ++ isoFn row.created_at ++
            " is before previous " ++ isoFn prev ++ "."⟩]
        else []
    | Option.none => []
  let dupAnoms : List Anomaly :=
    if st.seenTxIds.contains row.tx_id then
      [⟨"duplicate_tx_id", index, "Duplicate tx_id " ++ row.tx_id ++ " found."⟩]
    else []
  let currentRowHash := forensicRowHash isoFn row
  let mismatchAnoms : List Anomaly :=
    if st.index > 0 ∧ st.prevRowHash ≠ some row.tx_id then
      [⟨"hash_chain_mismatch", index,
        "Hash chain broken at tx_order " ++ toString row.tx_order ++
        ". Expected " ++ (match st.prevRowHash with
                          | some h => h
                          | Option.none => "None") ++
        " but got " ++ row.tx_id ++ "."⟩]
    else []
  { index := index
    prevTxOrder := row.tx_order
    prevCreatedAt := some row.created_at
    prevRowHash := some currentRowHash
    seenTxIds := row.tx_id :: st.seenTxIds
    anomalies := st.anomalies ++ gapAnoms ++ tsAnoms ++ dupAnoms ++ mismatchAnoms }

/-- The §8 weight map; unknown types score 10 (`weight_map.get(t, 10)`). -/
def anomalyWeight (t : String) : Nat :=
  if t = "tx_order_gap" then 50
  else if t = "timestamp_non_monotonic" then 30
  else if t = "duplicate_tx_id" then 40
  else if t = "hash_chain_mismatch" then 60
  else 10

/-- The forensic report (the `generated_at` wall-clock field is omitted). -/
structure ForensicReport where
  table : String
  rowsScanned : Nat
  anomalyCount : Nat
  anomalies : List Anomaly
  riskScore : Nat
deriving DecidableEq, Repr

/-- `temporal_utils.analyze_universal_ledger_chain` on the rows fetched for
the table in ascending `tx_order`. -/
def analyzeUniversalLedgerChain (isoFn : DateTime → String) (tableName : String)
    (rows : List Row) : ForensicReport :=
  let final := rows.foldl (analyzeStep isoFn)
    ⟨0, 0, Option.none, Option.none, [], []⟩
  if final.index = 0 then ⟨tableName, 0, 0, [], 0⟩
  else
    let score := (final.anomalies.map (fun a => anomalyWeight a.type)).sum
    ⟨tableName, final.index, final.anomalies.length, final.anomalies, min 100 score⟩

/-! # Theorems

One theorem (plus the required auxiliary statements) per claim of the
specification, preceded by general-purpose lemmas about the embedding. -/

/-- Two strings with the same character data are equal. -/
theorem strEq_of_data {a b : String} (h : a.data = b.data) : a = b := by
  cases a; cases b; subst h; rfl

/-- Character data of `String.intercalate.go`. -/
theorem intercalate_go_data (acc s : String) (l : List String) :
    (String.intercalate.go acc s l).data =
      acc.data ++ (l.map (fun x => s.data ++ x.data)).flatten := by
  induction l generalizing acc with
  | nil => simp [String.intercalate.go]
  | cons x rest ih =>
      simp [String.intercalate.go, ih, String.data_append, List.append_assoc]

/-- A 7-element `'|'`-join is the corresponding `++`-chain. -/
theorem intercalate_pipe7 (a b c d e f g : String) :
    String.intercalate "|" [a, b, c, d, e, f, g] =
      a ++ "|" ++ b ++ "|" ++ c ++ "|" ++ d ++ "|" ++ e ++ "|" ++ f ++ "|" ++ g := by
  apply strEq_of_data
  simp [String.intercalate, intercalate_go_data, String.data_append, List.append_assoc]

/-- C1: `compute_chain_hash` returns the hex SHA-256 of the UTF-8 bytes of
the `'|'`-joined string `prev_hash|tx_id|record_id|op_type|OLD|NEW|created_at`,
where OLD (resp. NEW) is the canonical JSON of the payload when present and
the literal string `NULL` when absent, and `created_at` is rendered in the
canonical `YYYY-MM-DD HH:MM:SS.ffffff` format. -/
theorem chain_hash_preimage_spec (prevHash txId recordId opType : String)
    (oldPayload newPayload : Option JsonObj) (createdAt : DateTime) :
    computeChainHash prevHash txId recordId opType oldPayload newPayload createdAt =
      sha256Hex (utf8 (prevHash ++ "|" ++ txId ++ "|" ++ recordId ++ "|" ++ opType ++ "|" ++
        (match oldPayload with
         | some p => canonicalizeJson (.obj p)
         | Option.none => "NULL") ++ "|" ++
        (match newPayload with
         | some p => canonicalizeJson (.obj p)
         | Option.none => "NULL") ++ "|" ++ canonicalizeDatetime createdAt)) := by
  simp only [computeChainHash, intercalate_pipe7]

/-! ### C2: the chain verification walk -/

/-- The expected `prev_hash` of entry `i` when the walk starts from `exp`:
the genesis seed for the first entry, the stored `chain_hash` of the
preceding entry afterwards. -/
def expectedPrevFrom (exp : String) (rows : List Row) : Nat → String
  | 0 => exp
  | i + 1 =>
      match rows[i]? with
      | some r => r.chain_hash
      | Option.none => exp

/-- Entry `i` passes both checks of the verification walk: its `prev_hash`
links to its predecessor and its stored `chain_hash` matches the
recomputation. -/
def entryOkFrom (exp : String) (rows : List Row) (i : Nat) : Prop :=
  match rows[i]? with
  | some r => r.prev_hash = expectedPrevFrom exp rows i ∧ r.chain_hash = computeChainHashPy r
  | Option.none => True

theorem expectedPrevFrom_cons (exp : String) (r r' : Row) (rest : List Row) (i : Nat)
    (h : rest[i]? = some r') :
    expectedPrevFrom exp (r :: rest) (i + 1) = expectedPrevFrom r.chain_hash rest i := by
  cases i with
  | zero => simp [expectedPrevFrom]
  | succ j =>
      have hj1 : j + 1 < rest.length := (List.getElem?_eq_some.mp h).1
      have hj : j < rest.length := by omega
      have hr'' : rest[j]? = some rest[j] := List.getElem?_eq_some.mpr ⟨hj, rfl⟩
      simp [expectedPrevFrom, hr'']

theorem entryOkFrom_cons_succ (exp : String) (r : Row) (rest : List Row) (i : Nat) :
    entryOkFrom exp (r :: rest) (i + 1) ↔ entryOkFrom r.chain_hash rest i := by
  unfold entryOkFrom
  cases hri : rest[i]? with
  | none => simp [hri]
  | some r' =>
      simp only [List.getElem?_cons_succ, hri]
      rw [expectedPrevFrom_cons exp r r' rest i hri]

theorem verifyChainGo_never_nothing (l : List Row) (exp : String) :
    verifyChainGo exp l ≠ .nothingToVerify := by
  induction l generalizing exp with
  | nil => simp [verifyChainGo]
  | cons r rest ih =>
      simp only [verifyChainGo]
      split_ifs with h1 h2
      · simp
      · simp
      · exact ih r.chain_hash

theorem verifyChainGo_success_iff (l : List Row) : ∀ exp : String,
    (verifyChainGo exp l = .success ↔ ∀ i, i < l.length → entryOkFrom exp l i) := by
  induction l with
  | nil => intro exp; simp [verifyChainGo]
  | cons r rest ih =>
      intro exp
      simp only [verifyChainGo]
      split_ifs with h1 h2
      · constructor
        · intro h; cases h
        · intro hall
          have h0 := hall 0 (by simp)
          simp only [entryOkFrom, List.getElem?_cons_zero, expectedPrevFrom] at h0
          exact absurd h0.1 h1
      · constructor
        · intro h; cases h
        · intro hall
          have h0 := hall 0 (by simp)
          simp only [entryOkFrom, List.getElem?_cons_zero, expectedPrevFrom] at h0
          exact absurd h0.2 h2
      · rw [ih r.chain_hash]
        push_neg at h1 h2
        constructor
        · intro hrest i hi
          cases i with
          | zero =>
              simp only [entryOkFrom, List.getElem?_cons_zero, expectedPrevFrom]
              exact ⟨h1, h2⟩
          | succ j =>
              rw [entryOkFrom_cons_succ]
              exact hrest j (by simpa using hi)
        · intro hall i hi
          rw [← entryOkFrom_cons_succ exp r rest i]
          exact hall (i + 1) (by simpa using hi)

theorem verifyChainGo_chainBreak (l : List Row) : ∀ (exp : String) (t : Int),
    verifyChainGo exp l = .chainBreak t →
    ∃ i r, l[i]? = some r ∧ r.tx_order = t ∧
      r.prev_hash ≠ expectedPrevFrom exp l i ∧ (∀ j, j < i → entryOkFrom exp l j) := by
  induction l with
  | nil => intro exp t h; simp [verifyChainGo] at h
  | cons r rest ih =>
      intro exp t h
      simp only [verifyChainGo] at h
      split_ifs at h with h1 h2
      · cases h
        exact ⟨0, r, by simp, rfl, by simpa [expectedPrevFrom] using h1,
               fun j hj => absurd hj (by omega)⟩
      · obtain ⟨i, r', hget, htx, hne, hpre⟩ := ih r.chain_hash t h
        push_neg at h1 h2
        refine ⟨i + 1, r', by simpa using hget, htx, ?_, ?_⟩
        · rw [expectedPrevFrom_cons exp r r' rest i hget]
          exact hne
        · intro j hj
          cases j with
          | zero =>
              simp only [entryOkFrom, List.getElem?_cons_zero, expectedPrevFrom]
              exact ⟨h1, h2⟩
          | succ k =>
              rw [entryOkFrom_cons_succ]
              exact hpre k (by omega)

theorem verifyChainGo_corrupted (l : List Row) : ∀ (exp : String) (t : Int),
    verifyChainGo exp l = .corruptedEntry t →
    ∃ i r, l[i]? = some r ∧ r.tx_order = t ∧
      r.prev_hash = expectedPrevFrom exp l i ∧ r.chain_hash ≠ computeChainHashPy r ∧
      (∀ j, j < i → entryOkFrom exp l j) := by
  induction l with
  | nil => intro exp t h; simp [verifyChainGo] at h
  | cons r rest ih =>
      intro exp t h
      simp only [verifyChainGo] at h
      split_ifs at h with h1 h2
      · cases h
        push_neg at h1
        exact ⟨0, r, by simp, rfl, by simpa [expectedPrevFrom] using h1, h2,
               fun j hj => absurd hj (by omega)⟩
      · obtain ⟨i, r', hget, htx, heq, hne, hpre⟩ := ih r.chain_hash t h
        push_neg at h1 h2
        refine ⟨i + 1, r', by simpa using hget, htx, ?_, hne, ?_⟩
        · rw [expectedPrevFrom_cons exp r r' rest i hget]
          exact heq
        · intro j hj
          cases j with
          | zero =>
              simp only [entryOkFrom, List.getElem?_cons_zero, expectedPrevFrom]
              exact ⟨h1, h2⟩
          | succ k =>
              rw [entryOkFrom_cons_succ]
              exact hpre k (by omega)

/-- C2: chain verification walks the rows in ascending `tx_order` starting
from the all-zero genesis hash, checks each entry's `prev_hash` link and
recomputed chain hash in that order, reports the first failure as a chain
break or a corrupted entry identified by that entry's `tx_order`, and
succeeds (vacuously on an empty ledger) exactly when every entry passes
both checks. -/
theorem verify_chain_characterization (rows : List Row) :
    ((verifyChainCommand rows = .success ∨ verifyChainCommand rows = .nothingToVerify) ↔
       ∀ i, i < rows.length → entryOkFrom genesisHash rows i)
    ∧ (verifyChainCommand rows = .nothingToVerify ↔ rows = [])
    ∧ (∀ t : Int, verifyChainCommand rows = .chainBreak t →
         ∃ i r, rows[i]? = some r ∧ r.tx_order = t ∧
           r.prev_hash ≠ expectedPrevFrom genesisHash rows i ∧
           (∀ j, j < i → entryOkFrom genesisHash rows j))
    ∧ (∀ t : Int, verifyChainCommand rows = .corruptedEntry t →
         ∃ i r, rows[i]? = some r ∧ r.tx_order = t ∧
           r.prev_hash = expectedPrevFrom genesisHash rows i ∧
           r.chain_hash ≠ computeChainHashPy r ∧
           (∀ j, j < i → entryOkFrom genesisHash rows j)) := by
  unfold verifyChainCommand
  cases rows with
  | nil =>
      refine ⟨?_, ?_, ?_, ?_⟩
      · simp
      · simp
      · intro t h; simp at h
      · intro t h; simp at h
  | cons r rest =>
      have hlen : ¬((r :: rest).length = 0) := by simp
      simp only [hlen, if_neg, if_false]
      refine ⟨?_, ?_, ?_, ?_⟩
      · rw [← verifyChainGo_success_iff (r :: rest) genesisHash]
        constructor
        · rintro (h | h)
          · exact h
          · exact absurd h (verifyChainGo_never_nothing _ _)
        · exact Or.inl
      · constructor
        · intro h; exact absurd h (verifyChainGo_never_nothing _ _)
        · intro h; cases h
      · exact fun t h => verifyChainGo_chainBreak (r :: rest) genesisHash t h
      · exact fun t h => verifyChainGo_corrupted (r :: rest) genesisHash t h

/-- A well-formed single-entry ledger: `prev_hash` is the genesis constant
and `chain_hash` is the entry's recomputed digest. -/
def goodRow : Row :=
  ⟨1, "tx-1", "1", "INSERT", .none, .str "\x7b\"name\": \"A\"\x7d",
   ⟨2024, 1, 15, 10, 30, 45, 123456⟩, genesisHash,
   "15531de27a39e0bbdf99d5edff27a02293029deab3eefe938e3b05049292c62d"⟩

/-- C2 witness: the empty ledger reports "nothing to verify" and a
well-formed single-entry ledger verifies successfully. -/
theorem verify_chain_characterization_witness :
    verifyChainCommand [] = .nothingToVerify ∧ verifyChainCommand [goodRow] = .success := by
  constructor
  · exact ((verify_chain_characterization []).2.1).mpr rfl
  · apply Or.resolve_right
    · exact ((verify_chain_characterization [goodRow]).1).mpr (by
        intro i hi
        match i, hi with
        | 0, _ => exact ⟨by decide, by decide⟩)
    · intro h
      have := ((verify_chain_characterization [goodRow]).2.1).mp h
      cases this

/-! ### C3: Merkle inclusion proofs -/

/-- C3 (evaluation at the failing input): over the three leaves
`["a", "b", "c"]` the middle level has odd node count, its last node is
hashed with itself during the build, but `get_proof` omits the missing
sibling, so `verify_proof` rejects the valid leaf at index 2 even though it
accepts the leaves at indices 0 and 1.  This falsifies "for every leaf index
`i` of a built tree, `verify_proof(leaves[i], proof(i), root, i)` is true". -/
theorem merkle_proof_odd_level_failure :
    (mkMerkleTree ["a", "b", "c"]).leaves[2]? = some "c"
    ∧ (mkMerkleTree ["a", "b", "c"]).root =
        some "5c700ad7ee9dc104f1a6e92da5a3a76f73d62b0d1c86a205eace21ed914dcdbf"
    ∧ verifyProof "c" (getProof (mkMerkleTree ["a", "b", "c"]) 2)
        "5c700ad7ee9dc104f1a6e92da5a3a76f73d62b0d1c86a205eace21ed914dcdbf" 2 = false
    ∧ verifyProof "a" (getProof (mkMerkleTree ["a", "b", "c"]) 0)
        "5c700ad7ee9dc104f1a6e92da5a3a76f73d62b0d1c86a205eace21ed914dcdbf" 0 = true
    ∧ verifyProof "b" (getProof (mkMerkleTree ["a", "b", "c"]) 1)
        "5c700ad7ee9dc104f1a6e92da5a3a76f73d62b0d1c86a205eace21ed914dcdbf" 1 = true := by
  exact ⟨rfl, by decide, by decide, by decide, by decide⟩

/-! ### C5: writer-side vs verifier-side chain hashing -/

/-- A payload with a non-ASCII string and a nested timestamp value. -/
def c5Payload : JsonObj :=
  jobj [("name", .str "é"), ("seen_at", .dt ⟨2024, 1, 15, 10, 30, 45, 123456⟩)]

def c5dt : DateTime := ⟨2024, 1, 15, 10, 30, 45, 123456⟩

/-- C5 (counterexample): when the verifier-side row holds the structured
payload mapping itself, its canonicalization (`ensure_ascii` JSON with
`isoformat` timestamps) differs from the writer-side canonical JSON for
non-ASCII strings and nested timestamps, so the `'|'`-joined pre-image is
not byte-identical and the digests differ. -/
theorem writer_verifier_digest_mismatch :
    canonicalString (.obj c5Payload) ≠ canonicalizeJson (.obj c5Payload)
    ∧ computeChainHashPy ⟨7, "t", "r", "UPDATE", .none, .obj c5Payload, c5dt, "p", "x"⟩ ≠
        computeChainHash "p" "t" "r" "UPDATE" Option.none (some c5Payload) c5dt := by
  exact ⟨by decide, by decide⟩

/-- C5 (amended): the writer-side `compute_chain_hash` and the verifier-side
`compute_chain_hash_py` produce the same digest — with byte-identical
pre-image — whenever the row's payload fields hold the stored payload text
(the writer's canonical JSON serialization, `None` for an absent payload),
which is how the payload columns come back from the store. -/
theorem writer_verifier_agree_on_stored_text
    (txOrder : Int) (txId recordId opType prevHash chainHash : String)
    (oldPayload newPayload : Option JsonObj) (createdAt : DateTime) :
    computeChainHashPy
      ⟨txOrder, txId, recordId, opType,
       (match oldPayload with
        | some p => PyVal.str (canonicalizeJson (.obj p))
        | Option.none => PyVal.none),
       (match newPayload with
        | some p => PyVal.str (canonicalizeJson (.obj p))
        | Option.none => PyVal.none),
       createdAt, prevHash, chainHash⟩ =
      computeChainHash prevHash txId recordId opType oldPayload newPayload createdAt := by
  cases oldPayload <;> cases newPayload <;> rfl

/-! ### C6: record hashing with a field filter -/

/-- The sub-mapping of `payload` with keys restricted to `fields`, as the
claim describes the field filter. -/
def objRestrict (payload : JsonObj) (fields : List String) : JsonObj :=
  match payload with
  | .nil => .nil
  | .cons k v rest =>
      if fields.contains k then .cons k v (objRestrict rest fields)
      else objRestrict rest fields

/-- `record_hash` as the claim states it: hash of `record_id | canonical
JSON` of the full payload when `fields_to_hash` is not provided, of the
restricted sub-mapping when it is. -/
def recordHashSpec (recordId : String) (payload : JsonObj)
    (fieldsToHash : Option (List String)) : String :=
  let sub := match fieldsToHash with
    | Option.none => payload
    | some fs => objRestrict payload fs
  sha256Hex (utf8 (recordId ++ "|" ++ canonicalizeJson (.obj sub)))

/-- C6 (counterexample): `compute_record_hash` does not hash the restricted
sub-mapping.  A requested field absent from the payload is included with a
JSON `null` (the dict comprehension uses `payload.get(k)`), and an empty
`fields_to_hash` list falls into the falsy branch and hashes the full
payload instead of the empty sub-mapping. -/
theorem record_hash_restriction_counterexample :
    computeRecordHash "r" (jobj [("a", .int 1)]) (some ["b"]) ≠
      recordHashSpec "r" (jobj [("a", .int 1)]) (some ["b"])
    ∧ computeRecordHash "r" (jobj [("a", .int 1)]) (some []) ≠
      recordHashSpec "r" (jobj [("a", .int 1)]) (some []) := by
  exact ⟨by decide, by decide⟩

/-- C6 (amended): `compute_record_hash` hashes
`record_id | canonical_json(payload)` when `fields_to_hash` is absent or
empty, and `record_id | canonical_json({k: payload.get(k) for k in sorted
fields})` — every requested key present, missing ones as `null` — when
`fields_to_hash` is non-empty. -/
theorem record_hash_field_filter_spec (recordId : String) (payload : JsonObj)
    (fs : List String) :
    computeRecordHash recordId payload Option.none =
      sha256Hex (utf8 (recordId ++ "|" ++ canonicalizeJson (.obj payload)))
    ∧ computeRecordHash recordId payload (some []) =
      computeRecordHash recordId payload Option.none
    ∧ (fs ≠ [] → computeRecordHash recordId payload (some fs) =
        sha256Hex (utf8 (recordId ++ "|" ++
          canonicalizeJson (.obj (filteredPayload fs payload))))) := by
  refine ⟨rfl, rfl, ?_⟩
  intro hfs
  match fs, hfs with
  | f :: rest, _ => rfl

/-- C6 witness for the amended claim: the non-empty filter branch evaluated
at a concrete record. -/
theorem record_hash_field_filter_spec_witness :
    computeRecordHash "r" (jobj [("a", .int 1)]) (some ["b"]) =
      sha256Hex (utf8 ("r" ++ "|" ++
        canonicalizeJson (.obj (filteredPayload ["b"] (jobj [("a", .int 1)]))))) :=
  (record_hash_field_filter_spec "r" (jobj [("a", .int 1)]) ["b"]).2.2 (by decide)

/-! ### C7: the root of an empty Merkle tree -/

/-- C7 (counterexample): requesting the root of a Merkle tree built over the
empty leaf sequence does not return a sentinel — `build_tree` is skipped, the
`root` attribute is never assigned, and `get_root` raises `AttributeError`. -/
theorem get_root_empty_raises :
    getRoot (mkMerkleTree []) =
      .error "AttributeError: MerkleTree object has no attribute root" := rfl

/-- C7 (amended): constructing a `MerkleTree` over the empty leaf sequence
succeeds (no levels are built and no root is assigned), but `get_root` then
fails with an attribute error instead of returning a sentinel; the
"no data to verify" sentinel (`None`) is produced one layer up, by
`compute_root_from_chain_hashes`, before any tree is built. -/
theorem empty_tree_root_behavior :
    (mkMerkleTree []).leaves = [] ∧ (mkMerkleTree []).levels = []
    ∧ (mkMerkleTree []).root = Option.none
    ∧ (∀ r : String, getRoot (mkMerkleTree []) ≠ .ok r)
    ∧ computeRootFromChainHashes [] = Option.none := by
  refine ⟨rfl, rfl, rfl, ?_, rfl⟩
  intro r h
  cases h

/-! ### C8: checkpointing an empty ledger -/

/-- C8: for a table whose ledger has no entries the computed root is the
`None` sentinel, `compute_and_store_merkle_root` returns `None` having
neither signed nor persisted anything, and the only observable action is the
notification that the table might be empty. -/
theorem checkpoint_empty_ledger_spec (tableName : String) (signFn : String → String)
    (signerId pubFingerprint : String) :
    computeRootFromChainHashes [] = Option.none
    ∧ (computeAndStoreMerkleRoot tableName [] signFn signerId pubFingerprint).1 =
        Option.none
    ∧ (computeAndStoreMerkleRoot tableName [] signFn signerId pubFingerprint).2 =
        [.notify ("Could not compute Merkle root for table " ++ tableName ++
                  ". It might be empty.")] := by
  exact ⟨rfl, rfl, rfl⟩

/-! ### C4 and C10: state reconstruction -/

/-- The reconstruction step as the claim states it: an INSERT or UPDATE
entry assigns the (parsed) new payload to `state[record_id]`, a DELETE
removes the key, any other operation type is a fatal error. -/
def reconstructStep (state : List (String × PyVal)) (op : LedgerOp) :
    Except String (List (String × PyVal)) :=
  if op.op_type = "INSERT" ∨ op.op_type = "UPDATE" then
    match parsePayload op.new_payload with
    | .ok v => .ok (dictSetS state op.record_id v)
    | .error e => .error e
  else if op.op_type = "DELETE" then .ok (dictPopS state op.record_id)
  else .error ("Unknown op_type " ++ op.op_type ++ " at tx_order " ++ toString op.tx_order)

theorem applyOpsGo_eq_foldlM (l : List LedgerOp) : ∀ state,
    applyOpsGo state l = l.foldlM reconstructStep state := by
  induction l with
  | nil => intro state; rfl
  | cons op rest ih =>
      intro state
      simp only [applyOpsGo, reconstructStep, List.foldlM_cons]
      by_cases h1 : op.op_type = "INSERT"
      · simp only [h1, eq_self_iff_true, true_or, if_true, if_pos]
        cases hp : parsePayload op.new_payload with
        | ok v => exact ih (dictSetS state op.record_id v)
        | error e => rfl
      · by_cases h2 : op.op_type = "UPDATE"
        · simp only [h1, h2, eq_self_iff_true, or_true, if_false, if_true, if_pos]
          cases hp : parsePayload op.new_payload with
          | ok v => exact ih (dictSetS state op.record_id v)
          | error e => rfl
        · by_cases h3 : op.op_type = "DELETE"
          · simp only [h1, h2, h3, eq_self_iff_true, or_self, if_false, if_true, if_pos]
            exact ih (dictPopS state op.record_id)
          · simp only [h1, h2, h3, or_self, if_false]
            rfl


theorem applyOpsGo_old_payload_independent (l : List LedgerOp)
    (f : LedgerOp → PyVal) : ∀ state,
    applyOpsGo state (l.map (fun op => { op with old_payload := f op })) =
      applyOpsGo state l := by
  induction l with
  | nil => intro state; rfl
  | cons op rest ih =>
      intro state
      simp only [List.map_cons, applyOpsGo]
      cases hp : parsePayload op.new_payload with
      | ok v => split_ifs <;> simp [hp, ih]
      | error e => split_ifs <;> simp [hp, ih]

theorem dictGetS_set_ne (st : List (String × PyVal)) (k k' : String) (v : PyVal)
    (h : k' ≠ k) : dictGetS (dictSetS st k' v) k = dictGetS st k := by
  induction st with
  | nil => simp [dictSetS, dictGetS, h]
  | cons p rest ih =>
      by_cases hp : p.1 = k'
      · simp [dictSetS, dictGetS, hp, h, ih]
      · simp only [dictSetS, hp, if_neg, if_false]
        by_cases hk : p.1 = k
        · simp [dictGetS, hk]
        · simp [dictGetS, hk, ih]

theorem dictGetS_pop_ne (st : List (String × PyVal)) (k k' : String)
    (h : k' ≠ k) : dictGetS (dictPopS st k') k = dictGetS st k := by
  induction st with
  | nil => simp [dictPopS]
  | cons p rest ih =>
      by_cases hp : p.1 = k'
      · simp [dictPopS, dictGetS, hp, h]
      · simp only [dictPopS, hp, if_neg, if_false]
        by_cases hk : p.1 = k
        · simp [dictGetS, hk]
        · simp [dictGetS, hk, ih]

/-- Keys of the reconstructed state. -/
def stateKeys (st : List (String × PyVal)) : List String := st.map Prod.fst

theorem stateKeys_nil : stateKeys [] = [] := rfl

theorem stateKeys_cons (p : String × PyVal) (rest : List (String × PyVal)) :
    stateKeys (p :: rest) = p.1 :: stateKeys rest := rfl

theorem mem_stateKeys_dictSetS (st : List (String × PyVal)) (k a : String)
    (v : PyVal) :
    a ∈ stateKeys (dictSetS st k v) ↔ a = k ∨ a ∈ stateKeys st := by
  induction st with
  | nil => simp [dictSetS, stateKeys_cons, stateKeys_nil]
  | cons p rest ih =>
      by_cases hp : p.1 = k
      · subst hp
        simp [dictSetS, stateKeys_cons]
      · simp only [dictSetS, hp, if_neg, if_false, stateKeys_cons, List.mem_cons]
        rw [ih]
        tauto

theorem mem_stateKeys_dictPopS (st : List (String × PyVal)) (k a : String)
    (h : a ∈ stateKeys (dictPopS st k)) : a ∈ stateKeys st := by
  induction st with
  | nil => simpa [dictPopS] using h
  | cons p rest ih =>
      by_cases hp : p.1 = k
      · simp only [dictPopS, hp, if_pos, if_true] at h
        simp only [stateKeys_cons, List.mem_cons]
        exact Or.inr h
      · simp only [dictPopS, hp, if_neg, if_false, stateKeys_cons,
          List.mem_cons] at h ⊢
        rcases h with h | h
        · exact Or.inl h
        · exact Or.inr (ih h)

theorem stateKeys_nodup_set (st : List (String × PyVal)) (k : String) (v : PyVal)
    (h : (stateKeys st).Nodup) : (stateKeys (dictSetS st k v)).Nodup := by
  induction st with
  | nil => simp [dictSetS, stateKeys_cons, stateKeys_nil]
  | cons p rest ih =>
      rw [stateKeys_cons, List.nodup_cons] at h
      by_cases hp : p.1 = k
      · subst hp
        simp only [dictSetS, if_pos, if_true, stateKeys_cons, List.nodup_cons]
        exact ⟨h.1, h.2⟩
      · simp only [dictSetS, hp, if_neg, if_false, stateKeys_cons,
          List.nodup_cons]
        refine ⟨?_, ih h.2⟩
        intro hmem
        have hmem2 := (mem_stateKeys_dictSetS rest k p.1 v).mp hmem
        rcases hmem2 with h2 | h2
        · exact hp h2
        · exact h.1 h2

theorem stateKeys_nodup_pop (st : List (String × PyVal)) (k : String)
    (h : (stateKeys st).Nodup) : (stateKeys (dictPopS st k)).Nodup := by
  induction st with
  | nil => simp [dictPopS, stateKeys_nil]
  | cons p rest ih =>
      rw [stateKeys_cons, List.nodup_cons] at h
      by_cases hp : p.1 = k
      · simp only [dictPopS, hp, if_pos, if_true]
        exact h.2
      · simp only [dictPopS, hp, if_neg, if_false, stateKeys_cons,
          List.nodup_cons]
        exact ⟨fun hmem => h.1 (mem_stateKeys_dictPopS rest k p.1 hmem), ih h.2⟩

theorem dictGetS_eq_none_iff (st : List (String × PyVal)) (k : String) :
    dictGetS st k = Option.none ↔ k ∉ stateKeys st := by
  induction st with
  | nil => simp [dictGetS, stateKeys_nil]
  | cons p rest ih =>
      by_cases hp : p.1 = k
      · simp [dictGetS, hp, stateKeys_cons]
      · simp only [dictGetS, hp, if_neg, if_false, stateKeys_cons,
          List.mem_cons, not_or]
        rw [ih]
        have hne : ¬(k = p.1) := fun hc => hp hc.symm
        tauto

theorem dictGetS_pop_self (st : List (String × PyVal)) (k : String)
    (h : (stateKeys st).Nodup) : dictGetS (dictPopS st k) k = Option.none := by
  rw [dictGetS_eq_none_iff]
  induction st with
  | nil => simp [dictPopS, stateKeys_nil]
  | cons p rest ih =>
      rw [stateKeys_cons, List.nodup_cons] at h
      by_cases hp : p.1 = k
      · simp only [dictPopS, hp, if_pos, if_true]
        subst hp
        exact h.1
      · simp only [dictPopS, hp, if_neg, if_false, stateKeys_cons,
          List.mem_cons, not_or]
        exact ⟨fun hc => hp hc.symm, ih h.2⟩


theorem applyOpsGo_append (xs ys : List LedgerOp) : ∀ state,
    applyOpsGo state (xs ++ ys) =
      match applyOpsGo state xs with
      | .ok s => applyOpsGo s ys
      | .error e => .error e := by
  induction xs with
  | nil => intro state; rfl
  | cons op rest ih =>
      intro state
      simp only [List.cons_append, applyOpsGo]
      split_ifs with h1 h2 h3
      · cases hp : parsePayload op.new_payload with
        | ok v => exact ih (dictSetS state op.record_id v)
        | error e => rfl
      · cases hp : parsePayload op.new_payload with
        | ok v => exact ih (dictSetS state op.record_id v)
        | error e => rfl
      · exact ih (dictPopS state op.record_id)
      · rfl

theorem applyOpsGo_lookup_unchanged (l : List LedgerOp) (rid : String) :
    ∀ state s, applyOpsGo state l = .ok s → (∀ op ∈ l, op.record_id ≠ rid) →
    dictGetS s rid = dictGetS state rid := by
  induction l with
  | nil => intro state s h _; cases h; rfl
  | cons op rest ih =>
      intro state s h hne
      have hop : op.record_id ≠ rid := hne op (List.mem_cons_self op rest)
      have hrest : ∀ op' ∈ rest, op'.record_id ≠ rid :=
        fun op' hm => hne op' (List.mem_cons_of_mem op hm)
      simp only [applyOpsGo] at h
      split_ifs at h with h1 h2 h3
      · cases hp : parsePayload op.new_payload with
        | ok v =>
            rw [hp] at h
            rw [ih _ _ h hrest, dictGetS_set_ne state rid op.record_id v hop]
        | error e => rw [hp] at h; cases h
      · cases hp : parsePayload op.new_payload with
        | ok v =>
            rw [hp] at h
            rw [ih _ _ h hrest, dictGetS_set_ne state rid op.record_id v hop]
        | error e => rw [hp] at h; cases h
      · rw [ih _ _ h hrest, dictGetS_pop_ne state rid op.record_id hop]

theorem applyOpsGo_nodup (l : List LedgerOp) :
    ∀ state s, (stateKeys state).Nodup → applyOpsGo state l = .ok s →
    (stateKeys s).Nodup := by
  induction l with
  | nil => intro state s hn h; cases h; exact hn
  | cons op rest ih =>
      intro state s hn h
      simp only [applyOpsGo] at h
      split_ifs at h with h1 h2 h3
      · cases hp : parsePayload op.new_payload with
        | ok v =>
            rw [hp] at h
            exact ih _ _ (stateKeys_nodup_set state op.record_id v hn) h
        | error e => rw [hp] at h; cases h
      · cases hp : parsePayload op.new_payload with
        | ok v =>
            rw [hp] at h
            exact ih _ _ (stateKeys_nodup_set state op.record_id v hn) h
        | error e => rw [hp] at h; cases h
      · exact ih _ _ (stateKeys_nodup_pop state op.record_id hn) h


/-- C4: state reconstruction is a left fold of the claim's step function
over the ledger stream; the old payloads are never inspected (replacing
them arbitrarily leaves the result unchanged); and a record INSERTed and
later DELETEd, with no later entry for it, is absent from the
reconstructed state. -/
theorem apply_ops_fold_spec (stream : List LedgerOp) :
    applyOpsToState stream = stream.foldlM reconstructStep []
    ∧ (∀ f : LedgerOp → PyVal,
        applyOpsToState (stream.map (fun op => { op with old_payload := f op })) =
          applyOpsToState stream)
    ∧ (∀ (pre mid post : List LedgerOp) (op1 op2 : LedgerOp)
         (s : List (String × PyVal)) (rid : String),
        op1.op_type = "INSERT" → op1.record_id = rid →
        op2.op_type = "DELETE" → op2.record_id = rid →
        (∀ op ∈ post, op.record_id ≠ rid) →
        stream = pre ++ op1 :: mid ++ op2 :: post →
        applyOpsToState stream = .ok s →
        dictGetS s rid = Option.none) := by
  refine ⟨applyOpsGo_eq_foldlM stream [], ?_, ?_⟩
  · intro f
    exact applyOpsGo_old_payload_independent stream f []
  · intro pre mid post op1 op2 s rid _ _ hop2 hrid2 hpost hstream h
    subst hstream
    unfold applyOpsToState at h
    rw [show pre ++ op1 :: mid ++ op2 :: post = (pre ++ op1 :: mid) ++ op2 :: post by
      simp] at h
    rw [applyOpsGo_append (pre ++ op1 :: mid) (op2 :: post) []] at h
    cases hfst : applyOpsGo [] (pre ++ op1 :: mid) with
    | error e => rw [hfst] at h; cases h
    | ok s1 =>
        rw [hfst] at h
        have hn1 : (stateKeys s1).Nodup :=
          applyOpsGo_nodup (pre ++ op1 :: mid) [] s1 (by simp [stateKeys_nil]) hfst
        simp only [applyOpsGo, hop2] at h
        rw [if_pos trivial] at h
        rw [applyOpsGo_lookup_unchanged post rid _ s h
              (by intro op hm; exact hpost op hm)]
        rw [hrid2]
        exact dictGetS_pop_self s1 rid hn1

/-- C4 witness: an INSERT followed by a DELETE of the same record yields the
empty state, in which the record is absent. -/
theorem apply_ops_fold_spec_witness :
    applyOpsToState
      [⟨1, "1", "INSERT", PyVal.none, PyVal.none⟩,
       ⟨2, "1", "DELETE", PyVal.none, PyVal.none⟩] = .ok []
    ∧ dictGetS ([] : List (String × PyVal)) "1" = Option.none := by
  constructor
  · rfl
  · exact (apply_ops_fold_spec
      [⟨1, "1", "INSERT", PyVal.none, PyVal.none⟩,
       ⟨2, "1", "DELETE", PyVal.none, PyVal.none⟩]).2.2
      [] [] [] ⟨1, "1", "INSERT", PyVal.none, PyVal.none⟩
      ⟨2, "1", "DELETE", PyVal.none, PyVal.none⟩ [] "1"
      rfl rfl rfl rfl (by intro op hm; cases hm) rfl rfl

/-- C10: a DELETE entry whose `record_id` is not a key of the current state
is a harmless no-op: `state.pop(record_id, None)` leaves the state
unchanged and reconstruction continues without raising. -/
theorem delete_missing_record_noop (state : List (String × PyVal))
    (r : LedgerOp) (ys : List LedgerOp) (hop : r.op_type = "DELETE")
    (habs : dictGetS state r.record_id = Option.none) :
    dictPopS state r.record_id = state
    ∧ applyOpsGo state (r :: ys) = applyOpsGo state ys := by
  have hpop : dictPopS state r.record_id = state := by
    rw [dictGetS_eq_none_iff] at habs
    induction state with
    | nil => rfl
    | cons p rest ih =>
        simp only [stateKeys_cons, List.mem_cons, not_or] at habs
        have hp : ¬(p.1 = r.record_id) := fun hc => habs.1 hc.symm
        simp only [dictPopS, hp, if_neg, if_false]
        rw [ih habs.2]
  refine ⟨hpop, ?_⟩
  simp only [applyOpsGo, hop]
  rw [if_neg (by decide : ¬(("DELETE" : String) = "INSERT")),
      if_neg (by decide : ¬(("DELETE" : String) = "UPDATE")),
      if_pos trivial, hpop]

/-- C10 witness: a ledger consisting only of a DELETE for an absent record
reconstructs to the empty state without error. -/
theorem delete_missing_record_noop_witness :
    applyOpsToState [⟨1, "z", "DELETE", PyVal.none, PyVal.none⟩] = .ok [] := by
  have h := delete_missing_record_noop [] ⟨1, "z", "DELETE", PyVal.none, PyVal.none⟩
    [] rfl rfl
  calc applyOpsToState [⟨1, "z", "DELETE", PyVal.none, PyVal.none⟩]
      = applyOpsGo [] [⟨1, "z", "DELETE", PyVal.none, PyVal.none⟩] := rfl
    _ = applyOpsGo [] [] := h.2
    _ = .ok [] := rfl


/-! ### C9: forensic analysis -/

theorem natToHexPad_length (w : Nat) : ∀ n, (natToHexPad w n).length = w := by
  induction w with
  | zero => intro n; rfl
  | succ w ih =>
      intro n
      simp only [natToHexPad, String.length_append, ih]
      simp [String.length]

theorem round256_length (st : List Nat) (kw : Nat × Nat) :
    (round256 st kw).length = 8 := rfl

theorem foldl_round256_length (l : List (Nat × Nat)) :
    ∀ st : List Nat, st.length = 8 → (l.foldl round256 st).length = 8 := by
  induction l with
  | nil => intro st h; exact h
  | cons x rest ih => intro st h; exact ih (round256 st x) rfl

theorem processBlock_length (hs block : List Nat) (h : hs.length = 8) :
    (processBlock hs block).length = 8 := by
  simp only [processBlock, List.length_map, List.length_zip, h]
  rw [foldl_round256_length _ hs h]
  simp

theorem sha256Words_length (msg : List Nat) : (sha256Words msg).length = 8 := by
  unfold sha256Words
  have : ∀ (bs : List (List Nat)) (hs : List Nat), hs.length = 8 →
      (bs.foldl processBlock hs).length = 8 := by
    intro bs
    induction bs with
    | nil => intro hs h; exact h
    | cons b rest ih => intro hs h; exact ih _ (processBlock_length hs b h)
  exact this _ h256 rfl

theorem join_length (l : List String) : ∀ init : String,
    (l.foldl (fun r s => r ++ s) init).length = init.length + (l.map String.length).sum := by
  induction l with
  | nil => intro init; simp
  | cons x rest ih =>
      intro init
      simp only [List.foldl_cons, ih, String.length_append, List.map_cons, List.sum_cons]
      omega

theorem sha256Hex_length (msg : List Nat) : (sha256Hex msg).length = 64 := by
  unfold sha256Hex
  have hj : ∀ l : List String, (String.join l).length = (l.map String.length).sum := by
    intro l
    simpa using join_length l ""
  rw [hj]
  have : ∀ ws : List Nat, ((ws.map (natToHexPad 8)).map String.length).sum = 8 * ws.length := by
    intro ws
    induction ws with
    | nil => simp
    | cons w rest ih =>
        simp only [List.map_cons, List.sum_cons, natToHexPad_length, List.length_cons]
        rw [ih]
        ring
  rw [this, sha256Words_length]


/-- A naive ledger for end-to-end scenario 5. -/
def forensicDt : DateTime := ⟨2024, 1, 15, 10, 30, 45, 0⟩

def forensicRow (txOrder : Int) (txId : String) : Row :=
  ⟨txOrder, txId, "1", "INSERT", .none, .str "\x7b\"a\": \"x\"\x7d", forensicDt, "", ""⟩

def forensicRows : List Row :=
  [forensicRow 1 "t1", forensicRow 2 "t1", forensicRow 4 "t2"]

/-- A digest is 64 characters long, so it never equals a short transaction
identifier such as `t1` or `t2`. -/
theorem sha256Hex_ne_of_short (msg : List Nat) (t : String)
    (h : t.length ≠ 64) : sha256Hex msg ≠ t := by
  intro hc
  rw [← hc] at h
  exact h (sha256Hex_length msg)

/-- The forensic row hash is a digest, hence 64 characters long, hence never
equal to a short transaction identifier. -/
theorem forensicRowHash_ne_of_short (isoFn : DateTime → String) (r : Row)
    (t : String) (h : t.length ≠ 64) : forensicRowHash isoFn r ≠ t :=
  sha256Hex_ne_of_short _ t h

/-- C9 (evaluation at the failing input): on a ledger with `tx_order`
sequence `[1, 2, 4]` and a duplicated `tx_id`, the report's anomalies do
include `tx_order_gap` and `duplicate_tx_id`, but the hash-chain check —
which compares the previous row's forensic hash (a 64-character digest)
against the current `tx_id` — also fires at every row after the first, so
`risk_score` is `min 100 (40 + 60 + 50 + 60) = 100`, not the claimed 90.
In general `risk_score = min 100 (sum of the weights of the detected
anomalies)`, for any host-timezone rendering `isoFn` of timestamps. -/
theorem forensic_gap_dup_eval (isoFn : DateTime → String) :
    ((analyzeUniversalLedgerChain isoFn "customers" forensicRows).anomalies.map
        (fun a => a.type) =
      ["duplicate_tx_id", "hash_chain_mismatch", "tx_order_gap", "hash_chain_mismatch"])
    ∧ (analyzeUniversalLedgerChain isoFn "customers" forensicRows).riskScore = 100
    ∧ (∀ (tableName : String) (rows : List Row),
        (analyzeUniversalLedgerChain isoFn tableName rows).riskScore =
          min 100 (((analyzeUniversalLedgerChain isoFn tableName rows).anomalies.map
            (fun a => anomalyWeight a.type)).sum)) := by
  have hraw1 : forensicRowHash isoFn (forensicRow 1 "t1") ≠ "t1" :=
    sha256Hex_ne_of_short _ _ (by decide)
  have hraw2 : forensicRowHash isoFn (forensicRow 2 "t1") ≠ "t2" :=
    sha256Hex_ne_of_short _ _ (by decide)
  refine ⟨?_, ?_, ?_⟩
  · simp only [analyzeUniversalLedgerChain, forensicRows, List.foldl, analyzeStep,
      forensicRow, dtLt, dtFields, natListLt, forensicDt]
    norm_num
    rw [if_neg (forensicRowHash_ne_of_short _ _ _ (by decide)),
        if_neg (forensicRowHash_ne_of_short _ _ _ (by decide))]
    rfl
  · simp only [analyzeUniversalLedgerChain, forensicRows, List.foldl, analyzeStep,
      forensicRow, dtLt, dtFields, natListLt, forensicDt]
    norm_num
    rw [if_neg (forensicRowHash_ne_of_short _ _ _ (by decide)),
        if_neg (forensicRowHash_ne_of_short _ _ _ (by decide)),
        if_neg (by decide : ¬(("t2" : String) = "t1"))]
    simp only [show anomalyWeight "duplicate_tx_id" = 40 from rfl,
      show anomalyWeight "hash_chain_mismatch" = 60 from rfl,
      show anomalyWeight "tx_order_gap" = 50 from rfl,
      List.map_cons, List.map_nil, List.sum_cons, List.sum_nil]
    norm_num
  · intro tableName rows
    unfold analyzeUniversalLedgerChain
    by_cases h : (rows.foldl (analyzeStep isoFn)
        ⟨0, 0, Option.none, Option.none, [], []⟩).index = 0
    · simp [h]
    · simp [h]
end MariaLedger
